import Mathlib

/-!
# go-serial: the speed table, the configuration flags and the `Port` wrappers

A shallow embedding of `serial.go`.

* Go `int` is `Int`, `uint32` is `Nat`.  The functions embedded here only compare
  and mask these values (no addition, no multiplication), so no wrap-around is
  involved and the theorems hold for every value, in particular for every value
  in the machine range.
* A Go `error` result is an `Option` (`none` is `nil`).
* A method with a pointer receiver is a function that takes the state it may
  change and returns the new state next to its results.
-/

namespace Serial

/-! ## speedTable (serial.go, lines 175-198) -/

/-- The anonymous struct of `speedTable`: a numeric speed and its `Bxxx` code. -/
structure speedEntry where
  speed : Int
  code : Nat
  deriving DecidableEq, Repr

/-- Go `type speedTable []struct{ speed int; code uint32 }`. -/
abbrev speedTable := List speedEntry

/-- Go `func (t speedTable) Code(speed int) (code uint32, ok bool)`:
the `for ... range` loop returns at the first entry whose speed matches,
and `0, false` when the loop ends. -/
def speedTable.Code : speedTable → Int → Nat × Bool
  | [], _ => (0, false)
  | s :: t, speed => if s.speed = speed then (s.code, true) else speedTable.Code t speed

/-- Go `func (t speedTable) Speed(code uint32) (speed int, ok bool)`:
the `for ... range` loop returns at the first entry whose code matches,
and `0, false` when the loop ends. -/
def speedTable.Speed : speedTable → Nat → Int × Bool
  | [], _ => (0, false)
  | s :: t, code => if s.code = code then (s.speed, true) else speedTable.Speed t code

/-! ## Parameter enums and `Conf` (serial.go, lines 18-50) -/

/-- Go `type ParityMode int`. -/
abbrev ParityMode := Int

def ParityNone : ParityMode := 0
def ParityEven : ParityMode := 1
def ParityOdd : ParityMode := 2
def ParityMark : ParityMode := 3
def ParitySpace : ParityMode := 4

/-- Go `type FlowMode int`. -/
abbrev FlowMode := Int

def FlowNone : FlowMode := 0
def FlowRTSCTS : FlowMode := 1
def FlowXONXOFF : FlowMode := 2
def FlowOther : FlowMode := 3

/-- Go `type Conf struct`. -/
structure Conf where
  Baudrate : Int
  Databits : Int
  Stopbits : Int
  Parity : ParityMode
  Flow : FlowMode
  NoReset : Bool
  deriving DecidableEq, Repr

/-! ## ConfFlags (serial.go, lines 82-94) -/

/-- Go `type ConfFlags int`. -/
abbrev ConfFlags := Int

/-- Go `ConfBaudrate ConfFlags = 1 << iota`, with `iota = 0`. -/
def ConfBaudrate : ConfFlags := 1 <<< (0 : Int)
/-- The implicit repetition `1 << iota`, with `iota = 1`. -/
def ConfDatabits : ConfFlags := 1 <<< (1 : Int)
/-- The implicit repetition `1 << iota`, with `iota = 2`. -/
def ConfParity : ConfFlags := 1 <<< (2 : Int)
/-- The implicit repetition `1 << iota`, with `iota = 3`. -/
def ConfStopbits : ConfFlags := 1 <<< (3 : Int)
/-- The implicit repetition `1 << iota`, with `iota = 4`. -/
def ConfFlow : ConfFlags := 1 <<< (4 : Int)
/-- The implicit repetition `1 << iota`, with `iota = 5`. -/
def ConfNoReset : ConfFlags := 1 <<< (5 : Int)
/-- Go `ConfFormat = ConfDatabits | ConfParity | ConfStopbits`. -/
def ConfFormat : ConfFlags := Int.lor (Int.lor ConfDatabits ConfParity) ConfStopbits
/-- Go `ConfAll = ConfBaudrate | ConfFormat | ConfFlow | ConfNoReset`. -/
def ConfAll : ConfFlags := Int.lor (Int.lor (Int.lor ConfBaudrate ConfFormat) ConfFlow) ConfNoReset

/-- The six flags declared with `1 << iota`. -/
def baseFlags : List ConfFlags :=
  [ConfBaudrate, ConfDatabits, ConfParity, ConfStopbits, ConfFlow, ConfNoReset]

/-- A flags value written as `x1 | x2 | ... | xn`, starting from no flag at all. -/
def orAll (fs : List ConfFlags) : ConfFlags := fs.foldl Int.lor 0

/-! ## flushSel (serial.go, lines 155-161) -/

/-- Go `type flushSel int`. -/
abbrev flushSel := Int

def flushIn : flushSel := 0
def flushOut : flushSel := 1
def flushInOut : flushSel := 2

/-! ## Port and its methods (serial.go, lines 12-16 and 55-173)

`Port` embeds a `*port`, the system-specific part, which lives in the
`serial_<system>.go` files.  `P` is the type of what that pointer gives access
to; the system-specific functions the methods call are arguments that carry
the Go names (`confSome`, `getConf`, `read`, `flush`, and `open`).  `E` is the
type of the non-nil `error` values. -/

/-- Go `type Port struct { Name string; *port }`. -/
structure Port (P : Type) where
  Name : String
  port : P

/-- Go `func Open(name string) (port *Port, err error)`.  The result of the
system-specific `open` is the pair `(p, err)` exactly as Go returns it. -/
def Open {P E : Type} («open» : String → P × Option E) (name : String) :
    Option (Port P) × Option E :=
  match «open» name with
  | (_, some e) => (none, some e)
  | (p, none) => (some { Name := name, port := p }, none)

/-- Go `func (p *Port) GetConf() (conf Conf, err error)`. -/
def Port.GetConf {P E : Type} (getConf : P → (Conf × Option E) × P) (p : Port P) :
    (Conf × Option E) × Port P :=
  ((getConf p.port).1, { p with port := (getConf p.port).2 })

/-- Go `func (p *Port) ConfSome(conf Conf, flags ConfFlags) error`. -/
def Port.ConfSome {P E : Type} (confSome : Conf → ConfFlags → P → Option E × P)
    (p : Port P) (conf : Conf) (flags : ConfFlags) : Option E × Port P :=
  ((confSome conf flags p.port).1, { p with port := (confSome conf flags p.port).2 })

/-- Go `func (p *Port) Conf(conf Conf) error`. -/
def Port.Conf {P E : Type} (confSome : Conf → ConfFlags → P → Option E × P)
    (p : Port P) (conf : Conf) : Option E × Port P :=
  ((confSome conf ConfAll p.port).1, { p with port := (confSome conf ConfAll p.port).2 })

/-- Go `func (p *Port) Read(b []byte) (n int, err error)`; the bytes of `b` after
the call are returned next to `n` and `err`.  A read can block, so the
system-specific `read` gives `none` when it does not return, and then
`Port.Read` does not return either. -/
def Port.Read {P E : Type}
    (read : List UInt8 → P → Option ((Int × Option E × List UInt8) × P))
    (p : Port P) (b : List UInt8) : Option ((Int × Option E × List UInt8) × Port P) :=
  match read b p.port with
  | none => none
  | some (r, q) => some (r, { p with port := q })

/-- Go `func (p *Port) Flush() error`. -/
def Port.Flush {P E : Type} (flush : flushSel → P → Option E × P) (p : Port P) :
    Option E × Port P :=
  ((flush flushInOut p.port).1, { p with port := (flush flushInOut p.port).2 })

/-- Go `func (p *Port) FlushIn() error`. -/
def Port.FlushIn {P E : Type} (flush : flushSel → P → Option E × P) (p : Port P) :
    Option E × Port P :=
  ((flush flushIn p.port).1, { p with port := (flush flushIn p.port).2 })

/-- Go `func (p *Port) FlushOut() error`. -/
def Port.FlushOut {P E : Type} (flush : flushSel → P → Option E × P) (p : Port P) :
    Option E × Port P :=
  ((flush flushOut p.port).1, { p with port := (flush flushOut p.port).2 })

/-! ## The system-specific part: `port.getConf`, `port.confSome`, `port.read`

These functions are in the `serial_<system>.go` files.  They are written here
from sections 3, 4.2, 4.3, 4.4, 6 and 7 of the specification. -/

/-- Modelled from the spec: the error values of the system-specific files
(`ErrTimeout` and the others), after the error taxonomy of section 7.  An error
that wraps an OS-reported error carries it as `cause`. -/
inductive Err where
  | OpenFailed (cause : Nat)
  | QueryFailed (cause : Nat)
  | ApplyFailed (cause : Nat)
  | InvalidParameter
  | Timeout
  | IOFailure (cause : Nat)
  | AlreadyClosed
  deriving DecidableEq, Repr

/-- Modelled from the spec: the `ErrTimeout` value that `Port.Read` documents,
the `Timeout` of section 7. -/
def ErrTimeout : Err := Err.Timeout

/-- Modelled from the spec: the `rawConfig` of section 6, the low-level
line-control structure the OS reads and writes.  The speed is held as a
hardware code next to the raw numeric rate the OS reports for a code that is
not a standard one (section 4.1); the other line parameters are held by value;
`flow` may hold a mode the `Conf` model does not know. -/
structure rawConfig where
  speedCode : Nat
  rawRate : Int
  databits : Int
  stopbits : Int
  parity : Int
  flow : Int
  deriving DecidableEq, Repr

/-- Modelled from the spec: what sections 1 and 6 leave to the platform and to
the OS port layer for the configuration calls.
* `stdSpeeds`: the speed table as populated for the platform.
* `customCode`: the hardware code under which a raw numeric rate is staged
  (section 4.2, a baud rate "accepted as a raw rate"); `none` when the platform
  only takes the rates of the table.
* `rejectZeroBaud`: whether a selected baud rate of 0 is refused (section 4.2
  asks for it; `TestBaudrate` sets 0 and expects success).
* `osGetError`: the error of `osGetConfig` on the live configuration, if any.
* `osSetError live raw`: the error of `osSetConfig` when `raw` is written over
  `live`, if any; without error the OS applies `raw` as a whole.
* `osSetPartial live raw`: the OS-defined live configuration a failed
  `osSetConfig` leaves behind. -/
structure platform where
  stdSpeeds : speedTable
  customCode : Option Nat
  rejectZeroBaud : Bool
  osGetError : rawConfig → Option Nat
  osSetError : rawConfig → rawConfig → Option Nat
  osSetPartial : rawConfig → rawConfig → rawConfig

/-- Modelled from the spec: the part of the OS port layer of section 6 that
`Read` consumes, over an OS state `H` the core cannot look into.
* `now h`: the clock reading in state `h`.
* `osRead h b budget`: `osRead(handle, buffer, waitBudget)`, a wait bounded by
  the relative `budget` (`none`: unbounded); it gives `n`, the OS error if any,
  the bytes of the buffer after the call, and the next OS state. -/
structure oslayer (H : Type) where
  now : H → Nat
  osRead : H → List UInt8 → Option Nat → (Int × Option Nat × List UInt8) × H

/-- Modelled from the spec: the system-specific `port` struct, the Port Session
of section 3 together with the state of its OS handle: the I/O side of the
handle (`os`), the live line configuration the OS holds for it (`live`), the
snapshot taken at open (`saved`), the `NoReset` bookkeeping flag, and the two
deadlines (`none` is the zero time: unbounded). -/
structure port (H : Type) where
  os : H
  live : rawConfig
  saved : rawConfig
  noReset : Bool
  readDeadline : Option Nat
  writeDeadline : Option Nat

/-- Modelled from the spec: whether the bitmask `flags` selects the field of
`bit` (section 3, `ConfFlags`), the test `flags&bit != 0` of the system-specific
`confSome`. -/
def selected (flags bit : ConfFlags) : Bool := decide (Int.land flags bit ≠ 0)

/-- Modelled from the spec: the baud rate `GetConf` reports (section 4.2):
reverse lookup of the code in the speed table, falling back to the raw numeric
rate when the code is not a standard one. -/
def decodeBaud (t : speedTable) (raw : rawConfig) : Int :=
  match speedTable.Speed t raw.speedCode with
  | (s, true) => s
  | (_, false) => raw.rawRate

/-- Modelled from the spec: the flow mode `GetConf` reports (section 3):
`FlowOther` stands for a detected mode that is none of the modelled ones. -/
def decodeFlow (f : Int) : FlowMode :=
  if f = FlowNone ∨ f = FlowRTSCTS ∨ f = FlowXONXOFF then f else FlowOther

/-- Modelled from the spec: decoding of the live raw configuration into the
`Conf` model (section 4.2, `GetConf`); `NoReset` is the flag stored on the
session. -/
def decodeConf (t : speedTable) (raw : rawConfig) (noReset : Bool) : Conf :=
  { Baudrate := decodeBaud t raw
    Databits := raw.databits
    Stopbits := raw.stopbits
    Parity := raw.parity
    Flow := decodeFlow raw.flow
    NoReset := noReset }

/-- Modelled from the spec: the system-specific `getConf` (section 4.2,
`GetConf(session) -> Conf | error(QueryFailed)`): reads the live configuration
back from the OS and decodes it.  On error the `Conf` result is the zero value. -/
def port.getConf {H : Type} (P : platform) (p : port H) : (Conf × Option Err) × port H :=
  match P.osGetError p.live with
  | some e => ((⟨0, 0, 0, 0, 0, false⟩, some (Err.QueryFailed e)), p)
  | none => ((decodeConf P.stdSpeeds p.live p.noReset, none), p)

/-- Modelled from the spec: validation of a selected baud rate (section 4.2):
resolvable through the speed table or accepted as a raw rate, and not an
included zero where the platform refuses it. -/
def validBaud (P : platform) (b : Int) : Bool :=
  !(P.rejectZeroBaud && decide (b = 0)) &&
    ((speedTable.Code P.stdSpeeds b).2 || P.customCode.isSome)

/-- Modelled from the spec: validation of the selected fields (section 4.2):
`Databits` in 5..8, `Stopbits` in 1..2, `Parity` one of the five modes, `Flow`
one of the three modes that can be requested (`FlowOther` is query-only). -/
def validConf (P : platform) (conf : Conf) (flags : ConfFlags) : Bool :=
  (!selected flags ConfBaudrate || validBaud P conf.Baudrate) &&
  (!selected flags ConfDatabits || decide (conf.Databits ∈ [5, 6, 7, 8])) &&
  (!selected flags ConfStopbits || decide (conf.Stopbits ∈ [1, 2])) &&
  (!selected flags ConfParity ||
    decide (conf.Parity ∈ [ParityNone, ParityEven, ParityOdd, ParityMark, ParitySpace])) &&
  (!selected flags ConfFlow || decide (conf.Flow ∈ [FlowNone, FlowRTSCTS, FlowXONXOFF]))

/-- Modelled from the spec: staging of a baud rate into the raw configuration
(section 4.2): the code of the speed table when the rate is resolvable, else
the raw rate under the platform's code for raw rates. -/
def stageBaud (P : platform) (b : Int) (raw : rawConfig) : rawConfig :=
  match speedTable.Code P.stdSpeeds b with
  | (c, true) => { raw with speedCode := c }
  | (_, false) =>
    match P.customCode with
    | some k => { raw with speedCode := k, rawRate := b }
    | none => raw

/-- Modelled from the spec: the merged configuration (section 4.2): each
selected field of `conf` is staged over the live configuration, the fields not
selected stay as read from it. -/
def stageConf (P : platform) (conf : Conf) (flags : ConfFlags) (live : rawConfig) : rawConfig :=
  let r1 := if selected flags ConfBaudrate then stageBaud P conf.Baudrate live else live
  let r2 := if selected flags ConfDatabits then { r1 with databits := conf.Databits } else r1
  let r3 := if selected flags ConfParity then { r2 with parity := conf.Parity } else r2
  let r4 := if selected flags ConfStopbits then { r3 with stopbits := conf.Stopbits } else r3
  if selected flags ConfFlow then { r4 with flow := conf.Flow } else r4

/-- Modelled from the spec: the system-specific `confSome` (section 4.2,
`ConfSome(session, conf, flags) -> error?`): the selected fields are validated
before any OS call (section 7), the live configuration is read, the merged
configuration is written, and `NoReset`, when selected, is stored on the
session without touching the hardware. -/
def port.confSome {H : Type} (P : platform) (conf : Conf) (flags : ConfFlags) (p : port H) :
    Option Err × port H :=
  if validConf P conf flags then
    match P.osGetError p.live with
    | some e => (some (Err.QueryFailed e), p)
    | none =>
      let raw := stageConf P conf flags p.live
      match P.osSetError p.live raw with
      | some e => (some (Err.ApplyFailed e), { p with live := P.osSetPartial p.live raw })
      | none =>
        (none, { p with
          live := raw
          noReset := if selected flags ConfNoReset then conf.NoReset else p.noReset })
  else (some Err.InvalidParameter, p)

/-- Modelled from the spec: the system-specific `read` (sections 4.3 and 4.4).
Before each wait the time left until the read deadline is computed: when the
deadline has passed the call fails with `Timeout` and count 0, without an OS
call; else the OS read waits for at most the time left.  An OS error is
returned wrapped as `IOFailure` with the count so far; a positive count is
returned at once; a wake without data goes round again.  The first argument
bounds the number of wakes; `none` is a call that has not returned within it. -/
def port.read {H : Type} (L : oslayer H) :
    Nat → List UInt8 → port H → Option ((Int × Option Err × List UInt8) × port H)
  | 0, _, _ => none
  | fuel + 1, b, p =>
    match p.readDeadline with
    | none =>
      match L.osRead p.os b none with
      | ((n, some e, b1), h) => some ((n, some (Err.IOFailure e), b1), { p with os := h })
      | ((n, none, b1), h) =>
        if 0 < n then some ((n, none, b1), { p with os := h })
        else port.read L fuel b1 { p with os := h }
    | some d =>
      if d ≤ L.now p.os then some ((0, some Err.Timeout, b), p)
      else
        match L.osRead p.os b (some (d - L.now p.os)) with
        | ((n, some e, b1), h) => some ((n, some (Err.IOFailure e), b1), { p with os := h })
        | ((n, none, b1), h) =>
          if 0 < n then some ((n, none, b1), { p with os := h })
          else port.read L fuel b1 { p with os := h }

/-! ## Concrete values the results below are evaluated on -/

/-- A speed table with the first standard rates and two of the high ones. -/
def sampleSpeeds : speedTable :=
  [⟨0, 0⟩, ⟨50, 1⟩, ⟨75, 2⟩, ⟨9600, 13⟩, ⟨19200, 14⟩, ⟨38400, 15⟩, ⟨57600, 4097⟩,
    ⟨115200, 4098⟩]

/-- A platform with `sampleSpeeds`, raw rates staged under code 4096, and an
OS that accepts every configuration. -/
def samplePlatform : platform :=
  { stdSpeeds := sampleSpeeds
    customCode := some 4096
    rejectZeroBaud := false
    osGetError := fun _ => none
    osSetError := fun _ _ => none
    osSetPartial := fun live _ => live }

/-- An OS whose state is the clock reading and whose line is silent: a read
waits for the whole budget (one tick when unbounded) and returns no byte. -/
def silentOS : oslayer Nat :=
  { now := fun h => h
    osRead := fun h b budget => ((0, none, b), h + budget.getD 1) }

/-- A session at 9600 8N1 without flow control, at time 0, with a read deadline
at time 100. -/
def samplePort : port Nat :=
  { os := 0
    live := ⟨13, 0, 8, 1, 0, 0⟩
    saved := ⟨13, 0, 8, 1, 0, 0⟩
    noReset := false
    readDeadline := some 100
    writeDeadline := none }

/-- A system-specific `open` that knows one device. -/
def sampleOpen (name : String) : Option (port Nat) × Option Err :=
  if name = "/dev/ttyS0" then (some samplePort, none) else (none, some (Err.OpenFailed 2))

/-! ### Lemmas on the two lookups -/

theorem Code_found_iff (t : speedTable) (s : Int) :
    (speedTable.Code t s).2 = true ↔ ∃ e ∈ t, e.speed = s := by
  induction t with
  | nil => simp [speedTable.Code]
  | cons a t ih =>
    by_cases h : a.speed = s
    · simp [speedTable.Code, h]
    · simp [speedTable.Code, h, ih]

theorem Code_found_mem (t : speedTable) (s : Int) (h : (speedTable.Code t s).2 = true) :
    ∃ e ∈ t, e.speed = s ∧ e.code = (speedTable.Code t s).1 := by
  induction t with
  | nil => simp [speedTable.Code] at h
  | cons a t ih =>
    by_cases ha : a.speed = s
    · exact ⟨a, List.mem_cons_self _ _, ha, by simp [speedTable.Code, ha]⟩
    · simp only [speedTable.Code, ha, if_false] at h ⊢
      obtain ⟨e, he, hs, hc⟩ := ih h
      exact ⟨e, List.mem_cons_of_mem _ he, hs, hc⟩

theorem Code_not_found (t : speedTable) (s : Int) (h : (speedTable.Code t s).2 = false) :
    (speedTable.Code t s).1 = 0 := by
  induction t with
  | nil => rfl
  | cons a t ih =>
    by_cases ha : a.speed = s
    · simp [speedTable.Code, ha] at h
    · simp only [speedTable.Code, ha, if_false] at h ⊢
      exact ih h

theorem Speed_found_iff (t : speedTable) (c : Nat) :
    (speedTable.Speed t c).2 = true ↔ ∃ e ∈ t, e.code = c := by
  induction t with
  | nil => simp [speedTable.Speed]
  | cons a t ih =>
    by_cases h : a.code = c
    · simp [speedTable.Speed, h]
    · simp [speedTable.Speed, h, ih]

theorem Speed_found_mem (t : speedTable) (c : Nat) (h : (speedTable.Speed t c).2 = true) :
    ∃ e ∈ t, e.code = c ∧ e.speed = (speedTable.Speed t c).1 := by
  induction t with
  | nil => simp [speedTable.Speed] at h
  | cons a t ih =>
    by_cases ha : a.code = c
    · exact ⟨a, List.mem_cons_self _ _, ha, by simp [speedTable.Speed, ha]⟩
    · simp only [speedTable.Speed, ha, if_false] at h ⊢
      obtain ⟨e, he, hs, hc⟩ := ih h
      exact ⟨e, List.mem_cons_of_mem _ he, hs, hc⟩

theorem Speed_not_found (t : speedTable) (c : Nat) (h : (speedTable.Speed t c).2 = false) :
    (speedTable.Speed t c).1 = 0 := by
  induction t with
  | nil => rfl
  | cons a t ih =>
    by_cases ha : a.code = c
    · simp [speedTable.Speed, ha] at h
    · simp only [speedTable.Speed, ha, if_false] at h ⊢
      exact ih h

/-- In a table whose codes are pairwise different, looking a member's code up
gives that member's speed. -/
theorem Speed_of_mem (t : speedTable) (h : (t.map speedEntry.code).Nodup)
    (e : speedEntry) (he : e ∈ t) : speedTable.Speed t e.code = (e.speed, true) := by
  induction t with
  | nil => simp at he
  | cons a t ih =>
    rw [List.map_cons, List.nodup_cons] at h
    rcases List.mem_cons.mp he with rfl | hmem
    · simp [speedTable.Speed]
    · have hne : a.code ≠ e.code := fun heq =>
        h.1 (heq ▸ List.mem_map_of_mem speedEntry.code hmem)
      simp only [speedTable.Speed, hne, if_false]
      exact ih h.2 hmem

/-- In a table whose speeds are pairwise different, looking a member's speed up
gives that member's code. -/
theorem Code_of_mem (t : speedTable) (h : (t.map speedEntry.speed).Nodup)
    (e : speedEntry) (he : e ∈ t) : speedTable.Code t e.speed = (e.code, true) := by
  induction t with
  | nil => simp at he
  | cons a t ih =>
    rw [List.map_cons, List.nodup_cons] at h
    rcases List.mem_cons.mp he with rfl | hmem
    · simp [speedTable.Code]
    · have hne : a.speed ≠ e.speed := fun heq =>
        h.1 (heq ▸ List.mem_map_of_mem speedEntry.speed hmem)
      simp only [speedTable.Code, hne, if_false]
      exact ih h.2 hmem


/-! ### Lemmas on the flags -/

theorem lor_lt_64 (a x : Int) (ha : 0 ≤ a ∧ a < 64) (hx : x ∈ baseFlags) :
    0 ≤ Int.lor a x ∧ Int.lor a x < 64 := by
  obtain ⟨ha0, ha1⟩ := ha
  obtain ⟨n, rfl⟩ := Int.eq_ofNat_of_zero_le ha0
  have hn : n < 64 := by exact_mod_cast ha1
  simp only [baseFlags, List.mem_cons, List.mem_singleton, List.not_mem_nil, or_false] at hx
  interval_cases n <;> rcases hx with rfl | rfl | rfl | rfl | rfl | rfl <;> decide

theorem foldl_lor_lt_64 (fs : List ConfFlags) (h : ∀ x ∈ fs, x ∈ baseFlags) :
    ∀ a : Int, (0 ≤ a ∧ a < 64) → 0 ≤ fs.foldl Int.lor a ∧ fs.foldl Int.lor a < 64 := by
  induction fs with
  | nil => intro a ha; simpa using ha
  | cons x fs ih =>
    intro a ha
    rw [List.foldl_cons]
    exact ih (fun y hy => h y (List.mem_cons_of_mem _ hy)) _
      (lor_lt_64 a x ha (h x (List.mem_cons_self _ _)))

theorem land_63_of_lt_64 (a : Int) (ha : 0 ≤ a ∧ a < 64) : Int.land a 63 = a := by
  obtain ⟨ha0, ha1⟩ := ha
  obtain ⟨n, rfl⟩ := Int.eq_ofNat_of_zero_le ha0
  have hn : n < 64 := by exact_mod_cast ha1
  interval_cases n <;> decide


/-! ### Lemmas on the modelled `getConf`, `confSome` and `read` -/

theorem getConf_ok {H : Type} (P : platform) (q q1 : port H) (c : Conf)
    (h : port.getConf P q = ((c, none), q1)) :
    c = decodeConf P.stdSpeeds q.live q.noReset ∧ q1 = q := by
  unfold port.getConf at h
  cases hg : P.osGetError q.live with
  | some e => rw [hg] at h; simp at h
  | none =>
    rw [hg] at h
    simp only [Prod.mk.injEq, and_true] at h
    exact ⟨h.1.symm, h.2.symm⟩

theorem confSome_ok {H : Type} (P : platform) (c : Conf) (f : ConfFlags) (q q1 : port H)
    (h : port.confSome P c f q = (none, q1)) :
    validConf P c f = true ∧ q1.live = stageConf P c f q.live ∧
      q1.noReset = (if selected f ConfNoReset then c.NoReset else q.noReset) := by
  unfold port.confSome at h
  cases hv : validConf P c f with
  | false => rw [hv] at h; simp at h
  | true =>
    rw [hv] at h
    simp only [if_true] at h
    cases hg : P.osGetError q.live with
    | some e => rw [hg] at h; simp at h
    | none =>
      rw [hg] at h
      simp only at h
      cases hs : P.osSetError q.live (stageConf P c f q.live) with
      | some e => rw [hs] at h; simp at h
      | none =>
        rw [hs] at h
        simp only [Prod.mk.injEq, true_and] at h
        subst h
        exact ⟨rfl, rfl, rfl⟩

theorem decodeBaud_congr (t : speedTable) (r1 r2 : rawConfig)
    (hc : r1.speedCode = r2.speedCode) (hr : r1.rawRate = r2.rawRate) :
    decodeBaud t r1 = decodeBaud t r2 := by
  unfold decodeBaud
  rw [hc, hr]

theorem decodeBaud_stageBaud (P : platform)
    (hcodes : P.stdSpeeds.Pairwise (fun a b => a.code ≠ b.code))
    (hcustom : ∀ k, P.customCode = some k → ∀ e ∈ P.stdSpeeds, e.code ≠ k)
    (b : Int) (raw : rawConfig) (hv : validBaud P b = true) :
    decodeBaud P.stdSpeeds (stageBaud P b raw) = b := by
  have hnodup : (P.stdSpeeds.map speedEntry.code).Nodup := by
    unfold List.Nodup
    exact List.pairwise_map.mpr hcodes
  cases hok : (speedTable.Code P.stdSpeeds b).2 with
  | true =>
    obtain ⟨e, he, hes, hec⟩ := Code_found_mem P.stdSpeeds b hok
    have hst : stageBaud P b raw = { raw with speedCode := e.code } := by
      unfold stageBaud
      rw [show speedTable.Code P.stdSpeeds b = (e.code, true) from Prod.ext hec.symm hok]
    rw [hst]
    unfold decodeBaud
    simp only
    rw [Speed_of_mem P.stdSpeeds hnodup e he]
    exact hes
  | false =>
    have hsome : P.customCode.isSome = true := by
      unfold validBaud at hv
      rw [hok] at hv
      simp only [Bool.false_or, Bool.and_eq_true] at hv
      exact hv.2
    obtain ⟨k, hk⟩ := Option.isSome_iff_exists.mp hsome
    have hst : stageBaud P b raw = { raw with speedCode := k, rawRate := b } := by
      unfold stageBaud
      rw [show speedTable.Code P.stdSpeeds b = ((speedTable.Code P.stdSpeeds b).1, false) from
        Prod.ext rfl hok, hk]
    rw [hst]
    have hnot : (speedTable.Speed P.stdSpeeds k).2 = false := by
      cases hf : (speedTable.Speed P.stdSpeeds k).2 with
      | false => rfl
      | true =>
        obtain ⟨e, he, hec⟩ := (Speed_found_iff P.stdSpeeds k).mp hf
        exact absurd hec (hcustom k hk e he)
    unfold decodeBaud
    simp only
    rw [show speedTable.Speed P.stdSpeeds k = ((speedTable.Speed P.stdSpeeds k).1, false) from
      Prod.ext rfl hnot]

theorem stageBaud_fields (P : platform) (b : Int) (raw : rawConfig) :
    (stageBaud P b raw).databits = raw.databits ∧ (stageBaud P b raw).stopbits = raw.stopbits ∧
      (stageBaud P b raw).parity = raw.parity ∧ (stageBaud P b raw).flow = raw.flow := by
  unfold stageBaud
  cases hc : speedTable.Code P.stdSpeeds b with
  | mk c ok =>
    cases ok with
    | true => exact ⟨rfl, rfl, rfl, rfl⟩
    | false =>
      cases hk : P.customCode with
      | none => exact ⟨rfl, rfl, rfl, rfl⟩
      | some k => exact ⟨rfl, rfl, rfl, rfl⟩

theorem read_timeout_zero {H : Type} (L : oslayer H) (fuel : Nat) :
    ∀ (b : List UInt8) (q : port H) (n : Int) (b1 : List UInt8) (q1 : port H),
      port.read L fuel b q = some ((n, some Err.Timeout, b1), q1) → n = 0 := by
  induction fuel with
  | zero => intro b q n b1 q1 h; simp [port.read] at h
  | succ k ih =>
    intro b q n b1 q1 h
    unfold port.read at h
    cases hd : q.readDeadline with
    | none =>
      rw [hd] at h
      simp only at h
      rcases hr : L.osRead q.os b none with ⟨⟨m, e, b2⟩, h2⟩
      rw [hr] at h
      cases e with
      | some e => simp at h
      | none =>
        simp only at h
        by_cases hm : 0 < m
        · simp [hm] at h
        · simp only [hm, if_false] at h
          exact ih _ _ _ _ _ h
    | some d =>
      rw [hd] at h
      simp only at h
      by_cases hx : d ≤ L.now q.os
      · simp only [hx, if_true, Option.some.injEq, Prod.mk.injEq] at h
        exact h.1.1.symm
      · simp only [hx, if_false] at h
        rcases hr : L.osRead q.os b (some (d - L.now q.os)) with ⟨⟨m, e, b2⟩, h2⟩
        rw [hr] at h
        cases e with
        | some e => simp at h
        | none =>
          simp only at h
          by_cases hm : 0 < m
          · simp [hm] at h
          · simp only [hm, if_false] at h
            exact ih _ _ _ _ _ h


theorem stageConf_fields (P : platform) (c : Conf) (f : ConfFlags) (live : rawConfig) :
    (stageConf P c f live).speedCode =
        (if selected f ConfBaudrate then stageBaud P c.Baudrate live else live).speedCode ∧
      (stageConf P c f live).rawRate =
        (if selected f ConfBaudrate then stageBaud P c.Baudrate live else live).rawRate ∧
      (stageConf P c f live).databits =
        (if selected f ConfDatabits then c.Databits else live.databits) ∧
      (stageConf P c f live).stopbits =
        (if selected f ConfStopbits then c.Stopbits else live.stopbits) ∧
      (stageConf P c f live).parity =
        (if selected f ConfParity then c.Parity else live.parity) ∧
      (stageConf P c f live).flow = (if selected f ConfFlow then c.Flow else live.flow) := by
  obtain ⟨hd, hs, hp, hf⟩ := stageBaud_fields P c.Baudrate live
  unfold stageConf
  refine ⟨?_, ?_, ?_, ?_, ?_, ?_⟩ <;> split_ifs <;> simp_all

theorem validConf_fields (P : platform) (c : Conf) (f : ConfFlags)
    (h : validConf P c f = true) :
    (selected f ConfBaudrate = true → validBaud P c.Baudrate = true) ∧
      (selected f ConfFlow = true →
        c.Flow = FlowNone ∨ c.Flow = FlowRTSCTS ∨ c.Flow = FlowXONXOFF) := by
  unfold validConf at h
  simp only [Bool.and_eq_true, Bool.or_eq_true, Bool.not_eq_true', decide_eq_true_eq,
    List.mem_cons, List.mem_singleton, List.not_mem_nil, or_false] at h
  obtain ⟨⟨⟨⟨hb, -⟩, -⟩, -⟩, hf⟩ := h
  constructor
  · intro hs
    rcases hb with hb | hb
    · rw [hs] at hb; cases hb
    · exact hb
  · intro hs
    rcases hf with hf | hf
    · rw [hs] at hf; cases hf
    · exact hf

/-- The configuration read back after a successful `confSome`, field by field. -/
theorem confSome_getConf_port {H : Type} (P : platform)
    (hcodes : P.stdSpeeds.Pairwise (fun a b => a.code ≠ b.code))
    (hcustom : ∀ k, P.customCode = some k → ∀ e ∈ P.stdSpeeds, e.code ≠ k)
    (q q0 q1 q2 : port H) (c : Conf) (f : ConfFlags) (c0 c1 : Conf)
    (h0 : port.getConf P q = ((c0, none), q0))
    (h1 : port.confSome P c f q0 = (none, q1))
    (h2 : port.getConf P q1 = ((c1, none), q2)) :
    c1.Baudrate = (if selected f ConfBaudrate then c.Baudrate else c0.Baudrate) ∧
      c1.Databits = (if selected f ConfDatabits then c.Databits else c0.Databits) ∧
      c1.Stopbits = (if selected f ConfStopbits then c.Stopbits else c0.Stopbits) ∧
      c1.Parity = (if selected f ConfParity then c.Parity else c0.Parity) ∧
      c1.Flow = (if selected f ConfFlow then c.Flow else c0.Flow) ∧
      c1.NoReset = (if selected f ConfNoReset then c.NoReset else c0.NoReset) := by
  obtain ⟨hc0, hq0⟩ := getConf_ok P q q0 c0 h0
  subst hq0
  obtain ⟨hv, hlive, hnr⟩ := confSome_ok P c f q0 q1 h1
  obtain ⟨hc1, -⟩ := getConf_ok P q1 q2 c1 h2
  obtain ⟨hvb, hvf⟩ := validConf_fields P c f hv
  obtain ⟨fsc, frr, fdb, fsb, fpa, ffl⟩ := stageConf_fields P c f q0.live
  subst hc0 hc1
  rw [hlive, hnr]
  refine ⟨?_, fdb, fsb, fpa, ?_, rfl⟩
  · show decodeBaud P.stdSpeeds (stageConf P c f q0.live) = _
    cases hs : selected f ConfBaudrate with
    | true =>
      rw [hs] at fsc frr
      simp only [if_true] at fsc frr ⊢
      rw [decodeBaud_congr _ _ _ fsc frr]
      exact decodeBaud_stageBaud P hcodes hcustom c.Baudrate q0.live (hvb hs)
    | false =>
      rw [hs] at fsc frr
      simp only [Bool.false_eq_true, if_false] at fsc frr ⊢
      exact decodeBaud_congr _ _ _ fsc frr
  · show decodeFlow (stageConf P c f q0.live).flow = _
    rw [ffl]
    cases hs : selected f ConfFlow with
    | true =>
      simp only [if_true]
      unfold decodeFlow
      rw [if_pos (hvf hs)]
    | false =>
      simp only [Bool.false_eq_true, if_false]
      rfl


/-! ## The speed table -/

/-- C1: in a speed table in which no two entries carry the same hardware code,
every speed `s` that is the speed of some entry is found by `Code`, with some
code `c`, and `Speed` of that code is found and gives `s` back. -/
theorem speedTable_round_trip (t : speedTable)
    (hcodes : t.Pairwise (fun a b => a.code ≠ b.code))
    (s : Int) (hs : ∃ e ∈ t, e.speed = s) :
    ∃ c, speedTable.Code t s = (c, true) ∧ speedTable.Speed t c = (s, true) := by
  have hnodup : (t.map speedEntry.code).Nodup := by
    unfold List.Nodup
    exact List.pairwise_map.mpr hcodes
  have hfound := (Code_found_iff t s).mpr hs
  obtain ⟨e, he, hes, hec⟩ := Code_found_mem t s hfound
  refine ⟨e.code, Prod.ext hec.symm hfound, ?_⟩
  rw [Speed_of_mem t hnodup e he, hes]

theorem speedTable_round_trip_witness :
    sampleSpeeds.Pairwise (fun a b => a.code ≠ b.code) ∧
      ∃ c, speedTable.Code sampleSpeeds 19200 = (c, true) ∧
        speedTable.Speed sampleSpeeds c = (19200, true) :=
  ⟨by decide, speedTable_round_trip sampleSpeeds (by decide) 19200 (by decide)⟩

/-- C2: `speedTable.Code` is a total lookup on the speed field: for every table
and every speed, `ok` is true exactly when some entry has that speed; when `ok`
is true the code returned is the code of an entry with that speed; when `ok` is
false the code returned is 0; on the empty table the result is `(0, false)`. -/
theorem Code_total_lookup (t : speedTable) (s : Int) :
    ((speedTable.Code t s).2 = true ↔ ∃ e ∈ t, e.speed = s) ∧
      ((speedTable.Code t s).2 = true →
        ∃ e ∈ t, e.speed = s ∧ e.code = (speedTable.Code t s).1) ∧
      ((speedTable.Code t s).2 = false → (speedTable.Code t s).1 = 0) ∧
      speedTable.Code [] s = (0, false) :=
  ⟨Code_found_iff t s, Code_found_mem t s, Code_not_found t s, rfl⟩

theorem Code_total_lookup_witness :
    speedTable.Code sampleSpeeds 9600 = (13, true) ∧
      speedTable.Code sampleSpeeds 9601 = (0, false) ∧
      ∃ e ∈ sampleSpeeds, e.speed = 9600 ∧ e.code = (speedTable.Code sampleSpeeds 9600).1 :=
  ⟨by decide, by decide, (Code_total_lookup sampleSpeeds 9600).2.1 (by decide)⟩

/-- C3: `speedTable.Speed` is a total lookup on the code field: for every table
and every code, `ok` is true exactly when some entry has that code; when `ok`
is true the speed returned is the speed of an entry with that code; when `ok`
is false the speed returned is 0; on the empty table the result is
`(0, false)`. -/
theorem Speed_total_lookup (t : speedTable) (c : Nat) :
    ((speedTable.Speed t c).2 = true ↔ ∃ e ∈ t, e.code = c) ∧
      ((speedTable.Speed t c).2 = true →
        ∃ e ∈ t, e.code = c ∧ e.speed = (speedTable.Speed t c).1) ∧
      ((speedTable.Speed t c).2 = false → (speedTable.Speed t c).1 = 0) ∧
      speedTable.Speed [] c = (0, false) :=
  ⟨Speed_found_iff t c, Speed_found_mem t c, Speed_not_found t c, rfl⟩

theorem Speed_total_lookup_witness :
    speedTable.Speed sampleSpeeds 4097 = (57600, true) ∧
      speedTable.Speed sampleSpeeds 4096 = (0, false) ∧
      ∃ e ∈ sampleSpeeds, e.code = 4097 ∧ e.speed = (speedTable.Speed sampleSpeeds 4097).1 :=
  ⟨by decide, by decide, (Speed_total_lookup sampleSpeeds 4097).2.1 (by decide)⟩

/-- C10: in a speed table in which no two entries carry the same numeric speed,
every code `c` that is the code of some entry is found by `Speed`, with some
speed `s`, and `Code` of that speed is found and gives `c` back.  When moreover
no two entries carry the same code, the forward round trip holds for every
speed of the table as well, so that `Code` and `Speed` are inverse to each
other between the speeds and the codes of the table. -/
theorem speedTable_reverse_round_trip (t : speedTable)
    (hspeeds : t.Pairwise (fun a b => a.speed ≠ b.speed))
    (c : Nat) (hc : ∃ e ∈ t, e.code = c) :
    (∃ s, speedTable.Speed t c = (s, true) ∧ speedTable.Code t s = (c, true)) ∧
      (t.Pairwise (fun a b => a.code ≠ b.code) →
        ∀ s, (∃ e ∈ t, e.speed = s) →
          ∃ c1, (∃ e ∈ t, e.code = c1) ∧ speedTable.Code t s = (c1, true) ∧
            speedTable.Speed t c1 = (s, true)) := by
  have hnodup : (t.map speedEntry.speed).Nodup := by
    unfold List.Nodup
    exact List.pairwise_map.mpr hspeeds
  constructor
  · have hfound := (Speed_found_iff t c).mpr hc
    obtain ⟨e, he, hec, hes⟩ := Speed_found_mem t c hfound
    refine ⟨e.speed, Prod.ext hes.symm hfound, ?_⟩
    rw [Code_of_mem t hnodup e he, hec]
  · intro hcodes s hs
    have hnodupc : (t.map speedEntry.code).Nodup := by
      unfold List.Nodup
      exact List.pairwise_map.mpr hcodes
    have hfound := (Code_found_iff t s).mpr hs
    obtain ⟨e, he, hes, hec⟩ := Code_found_mem t s hfound
    refine ⟨e.code, ⟨e, he, rfl⟩, Prod.ext hec.symm hfound, ?_⟩
    rw [Speed_of_mem t hnodupc e he, hes]

theorem speedTable_reverse_round_trip_witness :
    sampleSpeeds.Pairwise (fun a b => a.speed ≠ b.speed) ∧
      ∃ s, speedTable.Speed sampleSpeeds 4098 = (s, true) ∧
        speedTable.Code sampleSpeeds s = (4098, true) :=
  ⟨by decide, (speedTable_reverse_round_trip sampleSpeeds (by decide) 4098 (by decide)).1⟩


/-! ## The configuration flags -/

/-- C5: the six base flags are the six pairwise different single-bit values 1,
2, 4, 8, 16, 32; `ConfFormat` is `ConfDatabits|ConfParity|ConfStopbits` and has
none of the bits `ConfBaudrate`, `ConfFlow`, `ConfNoReset`; `ConfAll` is 63: it
has each of the six base bits and is no more than their union; and every flags
value `f` built by OR-ing base flags satisfies `f & ConfAll = f`. -/
theorem ConfFlags_structure (fs : List ConfFlags) (h : ∀ x ∈ fs, x ∈ baseFlags) :
    (ConfBaudrate = 1 ∧ ConfDatabits = 2 ∧ ConfParity = 4 ∧ ConfStopbits = 8 ∧
        ConfFlow = 16 ∧ ConfNoReset = 32) ∧
      baseFlags.Pairwise (fun a b => a ≠ b) ∧
      (ConfFormat = Int.lor (Int.lor ConfDatabits ConfParity) ConfStopbits ∧
        Int.land ConfFormat ConfBaudrate = 0 ∧ Int.land ConfFormat ConfFlow = 0 ∧
        Int.land ConfFormat ConfNoReset = 0) ∧
      (ConfAll = 63 ∧ (∀ x ∈ baseFlags, Int.land ConfAll x = x) ∧ ConfAll = orAll baseFlags) ∧
      Int.land (orAll fs) ConfAll = orAll fs := by
  refine ⟨by decide, by decide, ⟨rfl, by decide, by decide, by decide⟩,
    ⟨by decide, by decide, by decide⟩, ?_⟩
  have hall : ConfAll = 63 := by decide
  rw [hall]
  exact land_63_of_lt_64 _ (foldl_lor_lt_64 fs h 0 (by decide))

theorem ConfFlags_structure_witness :
    orAll [ConfBaudrate, ConfFlow, ConfBaudrate] = 17 ∧
      Int.land (orAll [ConfBaudrate, ConfFlow, ConfBaudrate]) ConfAll =
        orAll [ConfBaudrate, ConfFlow, ConfBaudrate] :=
  ⟨by decide, (ConfFlags_structure [ConfBaudrate, ConfFlow, ConfBaudrate] (by decide)).2.2.2.2⟩

/-! ## The `Port` wrappers -/

/-- C4: for every system-specific `confSome`, every port and every `Conf`
value, `Port.Conf` gives what `Port.ConfSome` gives with the flags `ConfAll`:
the same error and the same port afterwards, both those of the one call
`confSome(conf, ConfAll)` on the embedded port, and `ConfAll` is 63. -/
theorem Conf_is_ConfSome_ConfAll {P E : Type} (confSome : Conf → ConfFlags → P → Option E × P)
    (p : Port P) (c : Conf) :
    Port.Conf confSome p c = Port.ConfSome confSome p c ConfAll ∧
      (Port.Conf confSome p c).1 = (confSome c 63 p.port).1 ∧
      (Port.Conf confSome p c).2 = { Name := p.Name, port := (confSome c 63 p.port).2 } :=
  ⟨rfl, rfl, rfl⟩

/-- C7: for every system-specific `open` and every name: if `open(name)` gives
an error `e`, `Open(name)` gives the nil port and that same error; otherwise
`Open(name)` gives a nil error and a port whose `Name` is the name and whose
embedded handle is the one `open` returned; and `Open` gives an error exactly
when `open` does. -/
theorem Open_fails_or_names {P E : Type} («open» : String → P × Option E) (name : String) :
    (∀ e, («open» name).2 = some e → Open «open» name = (none, some e)) ∧
      ((«open» name).2 = none →
        Open «open» name = (some { Name := name, port := («open» name).1 }, none)) ∧
      ((Open «open» name).2 ≠ none ↔ («open» name).2 ≠ none) := by
  unfold Open
  rcases ho : «open» name with ⟨q, err⟩
  cases err with
  | none => simp
  | some e => simp

theorem Open_fails_or_names_witness :
    Open sampleOpen "/dev/ttyS0" = (some { Name := "/dev/ttyS0", port := some samplePort }, none) ∧
      Open sampleOpen "/dev/null" = (none, some (Err.OpenFailed 2)) :=
  ⟨(Open_fails_or_names sampleOpen "/dev/ttyS0").2.1 (by decide),
    (Open_fails_or_names sampleOpen "/dev/null").1 (Err.OpenFailed 2) (by decide)⟩

/-- C9: for every system-specific `flush` and every port, `Port.Flush` is the
call `flush(flushInOut)`, `Port.FlushIn` the call `flush(flushIn)` and
`Port.FlushOut` the call `flush(flushOut)` on the embedded port, each returning
the error of that call unchanged; the selectors are 0, 1 and 2, pairwise
different. -/
theorem Flush_selectors {P E : Type} (flush : flushSel → P → Option E × P) (p : Port P) :
    ((Port.Flush flush p).1 = (flush flushInOut p.port).1 ∧
        (Port.Flush flush p).2 = { Name := p.Name, port := (flush flushInOut p.port).2 }) ∧
      ((Port.FlushIn flush p).1 = (flush flushIn p.port).1 ∧
        (Port.FlushIn flush p).2 = { Name := p.Name, port := (flush flushIn p.port).2 }) ∧
      ((Port.FlushOut flush p).1 = (flush flushOut p.port).1 ∧
        (Port.FlushOut flush p).2 = { Name := p.Name, port := (flush flushOut p.port).2 }) ∧
      (flushIn = 0 ∧ flushOut = 1 ∧ flushInOut = 2) ∧
      (flushIn ≠ flushOut ∧ flushIn ≠ flushInOut ∧ flushOut ≠ flushInOut) :=
  ⟨⟨rfl, rfl⟩, ⟨rfl, rfl⟩, ⟨rfl, rfl⟩, ⟨rfl, rfl, rfl⟩, by decide⟩

/-! ## Selective configuration and the read timeout, on the modelled system part -/

/-- C6: on the system part modelled from the specification, for every `Conf`
value `c` and every flags value `f`: when `GetConf` returns `c0`, then
`ConfSome(c, f)` succeeds, then `GetConf` returns `c1`, each field of `c1`
selected by `f` is the field of `c` and each field not selected is the field of
`c0`.  The platform's speed table has no two entries with the same code, and
its code for raw rates is not a code of the table. -/
theorem ConfSome_GetConf_selective {H : Type} (P : platform)
    (hcodes : P.stdSpeeds.Pairwise (fun a b => a.code ≠ b.code))
    (hcustom : ∀ k, P.customCode = some k → ∀ e ∈ P.stdSpeeds, e.code ≠ k)
    (p p0 p1 p2 : Port (port H)) (c : Conf) (f : ConfFlags) (c0 c1 : Conf)
    (h0 : Port.GetConf (port.getConf P) p = ((c0, none), p0))
    (h1 : Port.ConfSome (port.confSome P) p0 c f = (none, p1))
    (h2 : Port.GetConf (port.getConf P) p1 = ((c1, none), p2)) :
    c1.Baudrate = (if selected f ConfBaudrate then c.Baudrate else c0.Baudrate) ∧
      c1.Databits = (if selected f ConfDatabits then c.Databits else c0.Databits) ∧
      c1.Stopbits = (if selected f ConfStopbits then c.Stopbits else c0.Stopbits) ∧
      c1.Parity = (if selected f ConfParity then c.Parity else c0.Parity) ∧
      c1.Flow = (if selected f ConfFlow then c.Flow else c0.Flow) ∧
      c1.NoReset = (if selected f ConfNoReset then c.NoReset else c0.NoReset) := by
  unfold Port.GetConf at h0 h2
  unfold Port.ConfSome at h1
  simp only [Prod.mk.injEq] at h0 h1 h2
  obtain ⟨h0a, h0b⟩ := h0
  obtain ⟨h1a, h1b⟩ := h1
  obtain ⟨h2a, -⟩ := h2
  have e0 : p0.port = (port.getConf P p.port).2 := by rw [← h0b]
  have e1 : p1.port = (port.confSome P c f p0.port).2 := by rw [← h1b]
  exact confSome_getConf_port P hcodes hcustom p.port p0.port p1.port
    (port.getConf P p1.port).2 c f c0 c1
    (Prod.ext h0a e0.symm) (Prod.ext h1a e1.symm) (Prod.ext h2a rfl)

theorem ConfSome_GetConf_selective_witness :
    (Port.GetConf (port.getConf samplePlatform)
        (Port.ConfSome (port.confSome samplePlatform) ⟨"ttyS0", samplePort⟩
          ⟨19200, 7, 0, 0, 0, true⟩ 3).2).1.1 = ⟨19200, 7, 1, 0, 0, false⟩ ∧
      (19200 : Int) = (if selected 3 ConfBaudrate then 19200 else 9600) ∧
      (7 : Int) = (if selected 3 ConfDatabits then 7 else 8) ∧
      (1 : Int) = (if selected 3 ConfStopbits then 0 else 1) :=
  have h := ConfSome_GetConf_selective samplePlatform (by decide) (by decide)
    ⟨"ttyS0", samplePort⟩ ⟨"ttyS0", samplePort⟩
    ⟨"ttyS0", { samplePort with live := ⟨14, 0, 7, 1, 0, 0⟩ }⟩
    ⟨"ttyS0", { samplePort with live := ⟨14, 0, 7, 1, 0, 0⟩ }⟩
    ⟨19200, 7, 0, 0, 0, true⟩ 3 ⟨9600, 8, 1, 0, 0, false⟩ ⟨19200, 7, 1, 0, 0, false⟩
    rfl rfl rfl
  ⟨rfl, h.1, h.2.1, h.2.2.1⟩

/-- C8: on the system part modelled from the specification, for every OS
layer, every port and every buffer, whenever `Port.Read` returns with
`err == ErrTimeout`, the count `n` it returns is 0. -/
theorem Read_timeout_count_zero {H : Type} (L : oslayer H) (fuel : Nat) (p p1 : Port (port H))
    (b b1 : List UInt8) (n : Int)
    (h : Port.Read (port.read L fuel) p b = some ((n, some ErrTimeout, b1), p1)) : n = 0 := by
  unfold Port.Read at h
  cases hr : port.read L fuel b p.port with
  | none => rw [hr] at h; simp at h
  | some r =>
    obtain ⟨⟨m, e, b2⟩, q⟩ := r
    rw [hr] at h
    simp only [Option.some.injEq, Prod.mk.injEq] at h
    obtain ⟨⟨hm, he, -⟩, -⟩ := h
    subst hm he
    exact read_timeout_zero L fuel b p.port m b2 q hr

theorem Read_timeout_count_zero_witness :
    Port.Read (port.read silentOS 2) ⟨"ttyS0", samplePort⟩ [0, 0] =
        some ((0, some ErrTimeout, [0, 0]), ⟨"ttyS0", { samplePort with os := 100 }⟩) ∧
      (0 : Int) = 0 :=
  ⟨rfl, Read_timeout_count_zero silentOS 2 ⟨"ttyS0", samplePort⟩
    ⟨"ttyS0", { samplePort with os := 100 }⟩ [0, 0] [0, 0] 0 rfl⟩

end Serial
